import Mathlib

/-!
Verification of the ZKPMTD repository against its natural-language
specification.  The Rust sources are shallowly embedded: machine
integers become `Nat` with explicit reductions modulo `2^64` where
overflow matters, byte arrays become `List Nat` (each entry a byte
value), fallible functions return `Except Err`.  The Poseidon2
permutation itself comes from the external Plonky3 crate; the sponge
construction around it (src/utils/hash.rs) is embedded faithfully and
parametrised over the permutation `perm` on 16-element states.
-/

namespace ZKMTD

/-- Error kinds, mirroring the kinds of `ZKMTDError` in src/core/errors.rs
(the reason strings are dropped; only the kind is needed). -/
inductive Err where
  | proofGenerationFailed
  | verificationFailed
  | invalidProof
  | invalidWitness
  | invalidEpoch
  | mtdError
  | entropyError
  | merkleError
  | serializationError
  | internalError
  deriving DecidableEq, Repr, Inhabited

/-- Word bound of `u64`. -/
def W64 : Nat := 2 ^ 64

/-- Goldilocks prime `p = 2^64 - 2^32 + 1` (src/utils/hash.rs, `F::ORDER_U64`). -/
def goldilocksP : Nat := 2 ^ 64 - 2 ^ 32 + 1

/-- Little-endian bytes of a `u64` value (`u64::to_le_bytes`). -/
def leBytes8 (x : Nat) : List Nat :=
  [x % 256, x / 256 % 256, x / 256 ^ 2 % 256, x / 256 ^ 3 % 256,
   x / 256 ^ 4 % 256, x / 256 ^ 5 % 256, x / 256 ^ 6 % 256, x / 256 ^ 7 % 256]

/-- Little-endian bytes of a `u32` value (`u32::to_le_bytes`). -/
def leBytes4 (x : Nat) : List Nat :=
  [x % 256, x / 256 % 256, x / 256 ^ 2 % 256, x / 256 ^ 3 % 256]

/-- Embeds `bytes_to_field` of src/utils/hash.rs: OR together up to 8 bytes
little-endian, then reduce modulo the Goldilocks order. -/
def bytesToField (bytes : List Nat) : Nat :=
  ((bytes.take 8).enum.foldl (fun acc ib => acc ||| (ib.2 <<< (ib.1 * 8))) 0) % goldilocksP

/-- Embeds `constant_time_eq_fixed` of src/utils/hash.rs: OR of XORs of all
byte pairs, compared with zero.  Both arrays have the same fixed length in
the source. -/
def constantTimeEqFixed (a b : List Nat) : Bool :=
  ((List.zipWith Nat.xor a b).foldl Nat.lor 0) == 0

/-- Chunking helper mirroring Rust `slice::chunks(n)`: splits a list into
consecutive chunks of `n` elements, the last chunk possibly shorter.
Implemented with an explicit fuel argument (the list length bounds the
number of chunks) so that it evaluates by kernel reduction. -/
def chunksGo (n : Nat) : Nat → List Nat → List (List Nat)
  | _, [] => []
  | 0, _ => []
  | fuel + 1, l => l.take n :: chunksGo n fuel (l.drop n)

/-- Rust `slice::chunks(n)` for byte slices. -/
def chunks (n : Nat) (l : List Nat) : List (List Nat) := chunksGo n l.length l

/-- Sponge state: sixteen Goldilocks elements, stored canonically. -/
abbrev SpongeState := List Nat

/-- Domain absorption step of `poseidon_hash`: each 8-byte chunk of the
domain tag is placed (set, not added) into the corresponding rate cell,
stopping at the rate (8 cells). -/
def absorbDomain (st : SpongeState) (domain : List Nat) : SpongeState :=
  ((chunks 8 domain).enum.foldl
    (fun s ic => if ic.1 ≥ 8 then s else s.set ic.1 (bytesToField ic.2)) st)

/-- Data absorption step for one `8 * RATE = 64`-byte chunk: each 8-byte
sub-chunk is field-added into the corresponding rate cell. -/
def absorbChunk (st : SpongeState) (chunk : List Nat) : SpongeState :=
  ((chunks 8 chunk).enum.foldl
    (fun s ic =>
      if ic.1 ≥ 8 then s
      else s.set ic.1 ((s.getD ic.1 0 + bytesToField ic.2) % goldilocksP)) st)

/-- Embeds `poseidon_hash` of src/utils/hash.rs: width-16 sponge with rate 8,
domain absorbed first, then the data in 64-byte chunks with a permutation
after each, squeezing 32 bytes from the first four cells.  The Poseidon2
permutation is the parameter `perm` (external Plonky3 code). -/
def poseidonHash (perm : SpongeState → SpongeState) (data domain : List Nat) : List Nat :=
  let st0 : SpongeState := List.replicate 16 0
  let st1 := perm (absorbDomain st0 domain)
  let st2 := (chunks 64 data).foldl (fun s chunk => perm (absorbChunk s chunk)) st1
  leBytes8 (st2.getD 0 0) ++ leBytes8 (st2.getD 1 0) ++
  leBytes8 (st2.getD 2 0) ++ leBytes8 (st2.getD 3 0)

/-- Embeds `combine_hashes` of src/utils/hash.rs (alloc path): hash of the
64-byte concatenation of the two 32-byte digests. -/
def combineHashes (perm : SpongeState → SpongeState) (left right domain : List Nat) : List Nat :=
  poseidonHash perm (left ++ right) domain

/-- Domain tag `DOMAIN_MERKLE` (src/utils/constants.rs). -/
def domainMerkle : List Nat := [90, 75, 77, 84, 68, 58, 58, 77, 101, 114, 107, 108, 101]

/-- Domain tag `DOMAIN_PV_COMMIT` (src/utils/constants.rs). -/
def domainPvCommit : List Nat := [90, 75, 77, 84, 68, 58, 58, 80, 86, 58, 58, 67, 111, 109, 109, 105, 116]

/-- Domain tag `DOMAIN_BINDING` (src/utils/constants.rs). -/
def domainBinding : List Nat := [90, 75, 77, 84, 68, 95, 66, 73, 78, 68, 73, 78, 71]

/-- Domain tag `DOMAIN_MTD_PARAMS` (src/utils/constants.rs). -/
def domainMtdParams : List Nat := [90, 75, 77, 84, 68, 58, 58, 77, 84, 68, 58, 58, 80, 97, 114, 97, 109, 101, 116, 101, 114, 115]

/-- Domain tag literal `b"MTD_DOMAIN_SEP"` used in src/mtd/warping.rs. -/
def domainMtdDomainSep : List Nat := [77, 84, 68, 95, 68, 79, 77, 65, 73, 78, 95, 83, 69, 80]

/-- Domain tag literal `b"MTD_SALT"` used in src/mtd/warping.rs. -/
def domainMtdSalt : List Nat := [77, 84, 68, 95, 83, 65, 76, 84]

/-- Domain tag literal `b"MTD_FRI_SEED"` used in src/mtd/warping.rs. -/
def domainMtdFriSeed : List Nat := [77, 84, 68, 95, 70, 82, 73, 95, 83, 69, 69, 68]

/-- Checksum domain literal `b"COMPRESSION_CHECKSUM"` used in src/utils/compression.rs. -/
def domainCompressionChecksum : List Nat := [67, 79, 77, 80, 82, 69, 83, 83, 73, 79, 78, 95, 67, 72, 69, 67, 75, 83, 85, 77]

/-- System salt `SYSTEM_SALT = b"ZKMTD-v1-system-salt-2024"` (src/utils/constants.rs). -/
def systemSalt : List Nat := [90, 75, 77, 84, 68, 45, 118, 49, 45, 115, 121, 115, 116, 101, 109, 45, 115, 97, 108, 116, 45, 50, 48, 50, 52]

/-- Byte literal `b"DOMAIN"` used in src/mtd/warping.rs. -/
def litDOMAIN : List Nat := [68, 79, 77, 65, 73, 78]

/-- Byte literal `b"SALT"` used in src/mtd/warping.rs. -/
def litSALT : List Nat := [83, 65, 76, 84]

/-- Byte literal `b"FRI"` used in src/mtd/warping.rs. -/
def litFRI : List Nat := [70, 82, 73]

/-- Identity permutation used to instantiate concrete witnesses; the facts
proved below hold for every permutation, so any concrete instance serves. -/
def permId : SpongeState → SpongeState := fun s => s

theorem lor_eq_zero {a b : Nat} (h : a ||| b = 0) : a = 0 ∧ b = 0 := by
  constructor
  · apply Nat.eq_of_testBit_eq
    intro i
    have hb := congrArg (fun n => Nat.testBit n i) h
    simp [Nat.testBit_or] at hb
    simp [hb.1]
  · apply Nat.eq_of_testBit_eq
    intro i
    have hb := congrArg (fun n => Nat.testBit n i) h
    simp [Nat.testBit_or] at hb
    simp [hb.2]

theorem foldl_lor_eq_zero (l : List Nat) (acc : Nat) (h : l.foldl Nat.lor acc = 0) :
    acc = 0 ∧ ∀ x ∈ l, x = 0 := by
  induction l generalizing acc with
  | nil => exact ⟨h, by simp⟩
  | cons y ys ih =>
    have h2 := ih (acc ||| y) h
    obtain ⟨hor, hall⟩ := h2
    obtain ⟨ha, hy⟩ := lor_eq_zero hor
    refine ⟨ha, ?_⟩
    intro x hx
    rcases List.mem_cons.mp hx with rfl | hm
    · exact hy
    · exact hall x hm

theorem foldl_lor_zero_of_all (l : List Nat) (h : ∀ x ∈ l, x = 0) :
    l.foldl Nat.lor 0 = 0 := by
  induction l with
  | nil => rfl
  | cons y ys ih =>
    have hy : y = 0 := h y (by simp)
    have hrest : ∀ x ∈ ys, x = 0 := fun x hx => h x (by simp [hx])
    simpa [hy] using ih hrest

theorem zipWith_xor_self (a : List Nat) :
    List.zipWith Nat.xor a a = List.replicate a.length 0 := by
  induction a with
  | nil => rfl
  | cons x xs ih =>
    show Nat.xor x x :: List.zipWith Nat.xor xs xs = _
    have hx : Nat.xor x x = 0 := Nat.xor_eq_zero.mpr rfl
    rw [hx, ih, List.length_cons, List.replicate_succ]

theorem constantTimeEqFixed_self (a : List Nat) : constantTimeEqFixed a a = true := by
  unfold constantTimeEqFixed
  rw [zipWith_xor_self]
  have h2 : (List.replicate a.length 0).foldl Nat.lor 0 = 0 :=
    foldl_lor_zero_of_all _ (by intro x hx; exact (List.eq_of_mem_replicate hx))
  simp [h2]

theorem constantTimeEqFixed_eq_true_iff (a b : List Nat) (hlen : a.length = b.length) :
    constantTimeEqFixed a b = true ↔ a = b := by
  constructor
  · intro h
    unfold constantTimeEqFixed at h
    have hfold : (List.zipWith Nat.xor a b).foldl Nat.lor 0 = 0 := by
      simpa using h
    have hzero : ∀ x ∈ List.zipWith Nat.xor a b, x = 0 :=
      (foldl_lor_eq_zero _ 0 hfold).2
    clear hfold h
    induction a generalizing b with
    | nil =>
      cases b with
      | nil => rfl
      | cons y ys => simp at hlen
    | cons x xs ih =>
      cases b with
      | nil => simp at hlen
      | cons y ys =>
        have hx : Nat.xor x y = 0 := hzero _ (by simp [List.zipWith])
        have hxy : x = y := Nat.xor_eq_zero.mp hx
        have htail : xs = ys := by
          apply ih
          · simpa using hlen
          · intro z hz
            exact hzero z (by simp [List.zipWith, hz])
        rw [hxy, htail]
  · rintro rfl
    exact constantTimeEqFixed_self a

/-- Constant `EPOCH_DURATION_SECS` (src/utils/constants.rs). -/
def epochDurationSecs : Nat := 3600

/-- Constant `MAX_EPOCH = u64::MAX - 1` (src/utils/constants.rs). -/
def maxEpoch : Nat := W64 - 2

/-- Constant `TIMESTAMP_TOLERANCE_SECS` (src/utils/constants.rs). -/
def timestampToleranceSecs : Nat := 300

/-- Constant `MTD_PARAM_CACHE_SIZE` (src/utils/constants.rs). -/
def mtdParamCacheSize : Nat := 16

/-- Constant `MAX_RLE_DECOMPRESSED_SIZE = 10 * 1024 * 1024` (src/utils/constants.rs). -/
def maxRleDecompressedSize : Nat := 10 * 1024 * 1024

/-- Embeds the `Epoch` struct of src/mtd/epoch.rs: a `u64` scalar. -/
structure Epoch where
  value : Nat
  deriving DecidableEq, Repr, Inhabited

/-- Embeds `Epoch::new` of src/mtd/epoch.rs: stores the value with no bound
check of any kind (the body is exactly `Self { value }`). -/
def Epoch.new (value : Nat) : Epoch := { value := value }

/-- Embeds `Epoch::from_timestamp`. -/
def Epoch.fromTimestamp (timestampSecs : Nat) : Epoch :=
  { value := timestampSecs / epochDurationSecs }

/-- Embeds `Epoch::next`: fails at `MAX_EPOCH`. -/
def Epoch.next (e : Epoch) : Except Err Epoch :=
  if e.value ≥ maxEpoch then .error .invalidEpoch
  else .ok (Epoch.new (e.value + 1))

/-- Embeds `Epoch::prev`: fails at zero. -/
def Epoch.prev (e : Epoch) : Except Err Epoch :=
  if e.value = 0 then .error .invalidEpoch
  else .ok (Epoch.new (e.value - 1))

/-- Embeds `Epoch::advance`: checked addition, then the `MAX_EPOCH` bound.
Checked `u64` addition fails when the mathematical sum leaves the word. -/
def Epoch.advance (e : Epoch) (count : Nat) : Except Err Epoch :=
  if e.value + count ≥ W64 then .error .invalidEpoch
  else if e.value + count > maxEpoch then .error .invalidEpoch
  else .ok (Epoch.new (e.value + count))

/-- Embeds `Epoch::start_timestamp`: the release-mode `u64` product
`value * EPOCH_DURATION_SECS`, which wraps modulo `2^64` (a panic in
checked builds). -/
def Epoch.startTimestamp (e : Epoch) : Nat :=
  (e.value * epochDurationSecs) % W64

/-- Embeds `Epoch::end_timestamp`: `(value + 1) * EPOCH_DURATION_SECS - 1`
with every `u64` step wrapping modulo `2^64`. -/
def Epoch.endTimestamp (e : Epoch) : Nat :=
  ((e.value + 1) % W64 * epochDurationSecs % W64 + W64 - 1) % W64

/-- Embeds `Epoch::contains_timestamp`. -/
def Epoch.containsTimestamp (e : Epoch) (timestampSecs : Nat) : Bool :=
  (Epoch.fromTimestamp timestampSecs).value == e.value

/-- Embeds `Epoch::distance`: absolute difference. -/
def Epoch.distance (e other : Epoch) : Nat :=
  max e.value other.value - min e.value other.value

/-- Embeds the `WarpingParams` struct of src/mtd/warping.rs. -/
structure WarpingParams where
  epoch : Epoch
  domainSeparator : List Nat
  salt : List Nat
  friSeed : List Nat
  deriving DecidableEq, Repr, Inhabited

/-- Embeds `derive_mtd_params` of src/utils/hash.rs (alloc path): hash of
`seed ∥ epoch_le8 ∥ salt` under `DOMAIN_MTD_PARAMS`, failing on an empty
seed. -/
def deriveMtdParams (perm : SpongeState → SpongeState) (seed : List Nat) (epoch : Nat)
    (salt : List Nat) : Except Err (List Nat) :=
  if seed = [] then .error .mtdError
  else .ok (poseidonHash perm (seed ++ leBytes8 epoch ++ salt) domainMtdParams)

/-- Success value of `WarpingParams::generate` for a non-empty seed: the
three 32-byte fields derived from the base hash as in src/mtd/warping.rs. -/
def genWarpingParams (perm : SpongeState → SpongeState) (seed : List Nat)
    (epoch : Epoch) : WarpingParams :=
  let base := poseidonHash perm (seed ++ leBytes8 epoch.value ++ systemSalt) domainMtdParams
  { epoch := epoch
    domainSeparator := poseidonHash perm (base ++ litDOMAIN) domainMtdDomainSep
    salt := poseidonHash perm (base ++ litSALT) domainMtdSalt
    friSeed := poseidonHash perm (base ++ litFRI) domainMtdFriSeed }

/-- Embeds `WarpingParams::generate` of src/mtd/warping.rs (alloc path). -/
def WarpingParams.generate (perm : SpongeState → SpongeState) (seed : List Nat)
    (epoch : Epoch) : Except Err WarpingParams :=
  if seed = [] then .error .mtdError
  else
    match deriveMtdParams perm seed epoch.value systemSalt with
    | .error e => .error e
    | .ok base =>
      .ok { epoch := epoch
            domainSeparator := poseidonHash perm (base ++ litDOMAIN) domainMtdDomainSep
            salt := poseidonHash perm (base ++ litSALT) domainMtdSalt
            friSeed := poseidonHash perm (base ++ litFRI) domainMtdFriSeed }

theorem WarpingParams.generate_eq (perm : SpongeState → SpongeState) (seed : List Nat)
    (epoch : Epoch) (h : seed ≠ []) :
    WarpingParams.generate perm seed epoch = .ok (genWarpingParams perm seed epoch) := by
  unfold WarpingParams.generate deriveMtdParams genWarpingParams
  simp [h]

/-- Embeds the `MTDManager` struct of src/mtd/manager.rs.  The hash
permutation is not stored (the Rust code reaches the global instance);
the cache `VecDeque` becomes a list with front at the head. -/
structure MTDManager where
  seed : List Nat
  currentEpoch : Epoch
  currentParams : WarpingParams
  cache : List WarpingParams
  autoAdvance : Bool
  deriving DecidableEq, Repr, Inhabited

/-- Embeds `MTDManager::with_epoch`: rejects an empty seed, generates the
initial parameters, starts with an empty cache and `auto_advance = false`. -/
def MTDManager.withEpoch (perm : SpongeState → SpongeState) (seed : List Nat)
    (epoch : Epoch) : Except Err MTDManager :=
  if seed = [] then .error .mtdError
  else
    match WarpingParams.generate perm seed epoch with
    | .error e => .error e
    | .ok params =>
      .ok { seed := seed, currentEpoch := epoch, currentParams := params
            cache := [], autoAdvance := false }

/-- Embeds `MTDManager::get_params`: current epoch fast path, then a linear
cache scan, then regeneration with FIFO insertion (evicting the oldest entry
at capacity).  The updated manager is returned alongside the parameters. -/
def MTDManager.getParams (perm : SpongeState → SpongeState) (m : MTDManager)
    (epoch : Epoch) : Except Err (WarpingParams × MTDManager) :=
  if epoch = m.currentEpoch then .ok (m.currentParams, m)
  else
    match m.cache.find? (fun p => p.epoch == epoch) with
    | some cached => .ok (cached, m)
    | none =>
      match WarpingParams.generate perm m.seed epoch with
      | .error e => .error e
      | .ok params =>
        let cache1 := if m.cache.length ≥ mtdParamCacheSize then m.cache.drop 1 else m.cache
        .ok (params, { m with cache := cache1 ++ [params] })

/-- Embeds `MTDManager::advance`: epoch increment (failing at `MAX_EPOCH`),
FIFO push of the old parameters, regeneration. -/
def MTDManager.advance (perm : SpongeState → SpongeState) (m : MTDManager) :
    Except Err (WarpingParams × MTDManager) :=
  match m.currentEpoch.next with
  | .error e => .error e
  | .ok nextEpoch =>
    let cache1 := if m.cache.length ≥ mtdParamCacheSize then m.cache.drop 1 else m.cache
    let cache2 := cache1 ++ [m.currentParams]
    match WarpingParams.generate perm m.seed nextEpoch with
    | .error e => .error e
    | .ok params =>
      .ok (params, { m with currentEpoch := nextEpoch, currentParams := params
                            cache := cache2 })

/-- Embeds `MTDManager::sync` of src/mtd/manager.rs with the wall-clock read
made explicit as the `systemEpoch` argument.  With `auto_advance` disabled the
function returns `Ok(false)` before the clock is read; otherwise a forward
clock jumps and clears the cache, a backward clock is an error, and an equal
clock is a no-op. -/
def MTDManager.sync (perm : SpongeState → SpongeState) (m : MTDManager)
    (systemEpoch : Epoch) : Except Err (Bool × MTDManager) :=
  if !m.autoAdvance then .ok (false, m)
  else if systemEpoch.value > m.currentEpoch.value then
    match WarpingParams.generate perm m.seed systemEpoch with
    | .error e => .error e
    | .ok params =>
      .ok (true, { m with currentEpoch := systemEpoch, currentParams := params
                          cache := [] })
  else if systemEpoch.value < m.currentEpoch.value then .error .mtdError
  else .ok (false, m)

/-- Embeds `MTDManager::set_auto_advance`. -/
def MTDManager.setAutoAdvance (m : MTDManager) (enabled : Bool) : MTDManager :=
  { m with autoAdvance := enabled }

/-- Embeds `MTDManager::validate_timestamp`: tolerance window around the
current epoch with saturating `u64` arithmetic at both ends. -/
def MTDManager.validateTimestamp (m : MTDManager) (timestampSecs : Nat) : Bool :=
  let epochStart := m.currentEpoch.startTimestamp
  let epochEnd := m.currentEpoch.endTimestamp
  let lowerBound := epochStart - timestampToleranceSecs
  let upperBound := min (epochEnd + timestampToleranceSecs) (W64 - 1)
  timestampSecs ≥ lowerBound && timestampSecs ≤ upperBound

/-- Embeds the `CommittedPublicInputs` struct of src/core/types.rs.  The
`value_count` is a `u32`, stored canonically. -/
structure CommittedPublicInputs where
  commitment : List Nat
  valueCount : Nat
  deriving DecidableEq, Repr, Inhabited

/-- Embeds `CommittedPublicInputs::commit`: hash of the little-endian
serialised values followed by the 32-byte salt, under `DOMAIN_PV_COMMIT`;
`value_count` is the length cast to `u32`. -/
def CommittedPublicInputs.commit (perm : SpongeState → SpongeState)
    (publicValues : List Nat) (pvSalt : List Nat) : CommittedPublicInputs :=
  let data := publicValues.foldl (fun acc v => acc ++ leBytes8 v) [] ++ pvSalt
  { commitment := poseidonHash perm data domainPvCommit
    valueCount := publicValues.length % 2 ^ 32 }

/-- Embeds `CommittedPublicInputs::verify`: length check, then recompute and
compare in constant time. -/
def CommittedPublicInputs.verify (perm : SpongeState → SpongeState)
    (c : CommittedPublicInputs) (publicValues : List Nat) (pvSalt : List Nat) : Bool :=
  if publicValues.length % 2 ^ 32 ≠ c.valueCount then false
  else
    constantTimeEqFixed c.commitment
      (CommittedPublicInputs.commit perm publicValues pvSalt).commitment

/-- Modelled from the spec: `ProofAirType` is exported by src/stark/mod.rs
and consumed by src/stark/integrated.rs (`proof.air_type.as_u8()`), yet its
definition is missing from the src snapshot.  The spec describes it as a
one-byte tag distinguishing the four AIR variants. -/
inductive ProofAirType where
  | fibonacci
  | sum
  | multiplication
  | range
  deriving DecidableEq, Repr, Inhabited

/-- Modelled from the spec: the one-byte tag of an AIR type
(`ProofAirType::as_u8`, missing from the src snapshot). -/
def ProofAirType.asU8 : ProofAirType → Nat
  | .fibonacci => 0
  | .sum => 1
  | .multiplication => 2
  | .range => 3

/-- Embeds the `RealProof` struct of src/stark/real_stark.rs.  The opaque
Plonky3 proof blob `inner` (external code behind `p3_uni_stark::prove`) is
modelled by the Boolean `innerValid`, the statement that the blob passes the
opaque `p3_uni_stark::verify` call; the prover produces a valid blob.  The
`air_type` field is consumed by src/stark/integrated.rs but its definition is
missing from the src snapshot (Modelled from the spec, see `ProofAirType`). -/
structure RealProof where
  numRows : Nat
  publicValues : List Nat
  airType : ProofAirType
  innerValid : Bool
  deriving DecidableEq, Repr, Inhabited

/-- Embeds `usize::is_power_of_two` (Rust standard library, external to the
repository): whether the value is a power of two.  Bounded search suffices
for word-sized values. -/
def isPowerOfTwo (n : Nat) : Bool :=
  (List.range 64).any (fun k => n == 2 ^ k)

/-- Fibonacci step in the Goldilocks field, as iterated by
`compute_public_values` of src/stark/real_stark.rs: `(a, b) ↦ (b, a + b)`. -/
def fibStep (ab : Nat × Nat) : Nat × Nat :=
  (ab.2, (ab.1 + ab.2) % goldilocksP)

/-- Embeds `compute_public_values` of src/stark/real_stark.rs: starting from
`(0, 1)`, apply the Fibonacci step `num_rows - 1` times and return
`[0, 1, a, b]`. -/
def computePublicValues (numRows : Nat) : List Nat :=
  let ab := fibStep^[numRows - 1] (0, 1)
  [0, 1, ab.1, ab.2]

/-- Embeds `verify_public_values_consistency` of src/stark/real_stark.rs:
length 4, `num_rows` a power of two at least 2, boundary values `[0, 1]`, and
final values recomputed in the Goldilocks field. -/
def verifyPublicValuesConsistency (numRows : Nat) (publicValues : List Nat) : Bool :=
  if publicValues.length ≠ 4 then false
  else if ¬ isPowerOfTwo numRows then false
  else if numRows < 2 then false
  else if publicValues.getD 0 0 ≠ 0 ∨ publicValues.getD 1 0 ≠ 1 then false
  else
    let ab := fibStep^[numRows - 1] (0, 1)
    publicValues.getD 2 0 == ab.1 && publicValues.getD 3 0 == ab.2

/-- Embeds `RealStarkProver::prove_fibonacci`: the trace builder validations
(power of two, at least 2 rows) gate the proof; the produced proof carries
`num_rows`, the canonical public values, and a valid opaque blob. -/
def RealStarkProver.proveFibonacci (numRows : Nat) : Except Err RealProof :=
  if ¬ isPowerOfTwo numRows then .error .invalidWitness
  else if numRows < 2 then .error .invalidWitness
  else
    .ok { numRows := numRows, publicValues := computePublicValues numRows
          airType := .fibonacci, innerValid := true }

/-- Embeds `RealStarkVerifier::verify_fibonacci`: the public-values
consistency check followed by the opaque Plonky3 verification (modelled by
`innerValid`). -/
def RealStarkVerifier.verifyFibonacci (proof : RealProof) : Bool :=
  if ¬ verifyPublicValuesConsistency proof.numRows proof.publicValues then false
  else proof.innerValid

/-- Modelled from the spec: `RealStarkVerifier::verify_by_type` is called by
src/stark/integrated.rs but missing from the src snapshot; it dispatches on
the AIR type of the proof, performing the Fibonacci verification for the
Fibonacci tag and the corresponding opaque verification otherwise. -/
def RealStarkVerifier.verifyByType (proof : RealProof) : Bool :=
  match proof.airType with
  | .fibonacci => RealStarkVerifier.verifyFibonacci proof
  | _ => proof.innerValid

/-- Embeds the byte sequence assembled by `compute_binding_hash` of
src/stark/integrated.rs: the AIR tag byte, then each public value as 8
little-endian bytes, the 32-byte commitment, the value count as 4
little-endian bytes, the epoch as 8 little-endian bytes, and the three
32-byte parameter fields. -/
def bindingData (sp : RealProof) (params : WarpingParams)
    (committed : CommittedPublicInputs) : List Nat :=
  let d := [sp.airType.asU8]
  let d := sp.publicValues.foldl (fun acc pv => acc ++ leBytes8 pv) d
  d ++ committed.commitment ++ leBytes4 committed.valueCount ++
    leBytes8 params.epoch.value ++ params.domainSeparator ++ params.friSeed ++ params.salt

/-- Embeds `compute_binding_hash` of src/stark/integrated.rs: Poseidon2 hash
of the binding data under `DOMAIN_BINDING`. -/
def computeBindingHash (perm : SpongeState → SpongeState) (sp : RealProof)
    (params : WarpingParams) (committed : CommittedPublicInputs) : List Nat :=
  poseidonHash perm (bindingData sp params committed) domainBinding

/-- Embeds the `IntegratedProof` struct of src/stark/integrated.rs. -/
structure IntegratedProof where
  starkProof : RealProof
  epoch : Epoch
  params : WarpingParams
  bindingHash : List Nat
  committedPublicValues : CommittedPublicInputs
  pvSalt : Option (List Nat)
  deriving DecidableEq, Repr, Inhabited

/-- Embeds the `IntegratedProver` struct of src/stark/integrated.rs (the
STARK backend holds only the fixed AIR and the permutation, which is a
parameter of the embedding). -/
structure IntegratedProver where
  mtdManager : MTDManager
  deriving DecidableEq, Repr, Inhabited

/-- Embeds `IntegratedProver::new`: an MTD manager from `with_epoch`. -/
def IntegratedProver.new (perm : SpongeState → SpongeState) (seed : List Nat)
    (epoch : Epoch) : Except Err IntegratedProver :=
  match MTDManager.withEpoch perm seed epoch with
  | .error e => .error e
  | .ok m => .ok { mtdManager := m }

/-- Embeds `IntegratedProver::prove_fibonacci`: inner STARK proof, commitment
of the public values under the salt, binding hash, envelope with the stored
salt. -/
def IntegratedProver.proveFibonacci (perm : SpongeState → SpongeState)
    (prover : IntegratedProver) (numRows : Nat) (pvSalt : List Nat) :
    Except Err IntegratedProof :=
  match RealStarkProver.proveFibonacci numRows with
  | .error e => .error e
  | .ok starkProof =>
    let epoch := prover.mtdManager.currentEpoch
    let params := prover.mtdManager.currentParams
    let committed := CommittedPublicInputs.commit perm starkProof.publicValues pvSalt
    .ok { starkProof := starkProof, epoch := epoch, params := params
          bindingHash := computeBindingHash perm starkProof params committed
          committedPublicValues := committed, pvSalt := some pvSalt }

/-- Embeds `IntegratedProver::prove_sum`.  The inner
`RealStarkProver::prove_sum` is missing from the src snapshot (Modelled from
the spec: it produces some `RealProof` from the two columns), so it is taken
as the parameter `innerProve`; the envelope glue is the src code. -/
def IntegratedProver.proveSum (perm : SpongeState → SpongeState)
    (prover : IntegratedProver) (innerProve : List Nat → List Nat → Except Err RealProof)
    (aValues bValues : List Nat) (pvSalt : List Nat) : Except Err IntegratedProof :=
  match innerProve aValues bValues with
  | .error e => .error e
  | .ok starkProof =>
    let epoch := prover.mtdManager.currentEpoch
    let params := prover.mtdManager.currentParams
    let committed := CommittedPublicInputs.commit perm starkProof.publicValues pvSalt
    .ok { starkProof := starkProof, epoch := epoch, params := params
          bindingHash := computeBindingHash perm starkProof params committed
          committedPublicValues := committed, pvSalt := some pvSalt }

/-- Embeds `IntegratedProver::prove_multiplication`, with the missing inner
prover as a parameter exactly as in `IntegratedProver.proveSum`. -/
def IntegratedProver.proveMultiplication (perm : SpongeState → SpongeState)
    (prover : IntegratedProver) (innerProve : List Nat → List Nat → Except Err RealProof)
    (aValues bValues : List Nat) (pvSalt : List Nat) : Except Err IntegratedProof :=
  match innerProve aValues bValues with
  | .error e => .error e
  | .ok starkProof =>
    let epoch := prover.mtdManager.currentEpoch
    let params := prover.mtdManager.currentParams
    let committed := CommittedPublicInputs.commit perm starkProof.publicValues pvSalt
    .ok { starkProof := starkProof, epoch := epoch, params := params
          bindingHash := computeBindingHash perm starkProof params committed
          committedPublicValues := committed, pvSalt := some pvSalt }

/-- Embeds `IntegratedProver::prove_range`, with the missing inner prover
(`RealStarkProver::prove_range`) as a parameter. -/
def IntegratedProver.proveRange (perm : SpongeState → SpongeState)
    (prover : IntegratedProver) (innerProve : Nat → Nat → Except Err RealProof)
    (value threshold : Nat) (pvSalt : List Nat) : Except Err IntegratedProof :=
  match innerProve value threshold with
  | .error e => .error e
  | .ok starkProof =>
    let epoch := prover.mtdManager.currentEpoch
    let params := prover.mtdManager.currentParams
    let committed := CommittedPublicInputs.commit perm starkProof.publicValues pvSalt
    .ok { starkProof := starkProof, epoch := epoch, params := params
          bindingHash := computeBindingHash perm starkProof params committed
          committedPublicValues := committed, pvSalt := some pvSalt }

/-- Embeds the `IntegratedVerifier` struct of src/stark/integrated.rs. -/
structure IntegratedVerifier where
  currentEpoch : Epoch
  currentParams : WarpingParams
  deriving DecidableEq, Repr, Inhabited

/-- Embeds `IntegratedProver::get_verifier`. -/
def IntegratedProver.getVerifier (prover : IntegratedProver) : IntegratedVerifier :=
  { currentEpoch := prover.mtdManager.currentEpoch
    currentParams := prover.mtdManager.currentParams }

/-- Embeds the private `IntegratedVerifier::verify_params_match`. -/
def IntegratedVerifier.verifyParamsMatch (v : IntegratedVerifier)
    (proofParams : WarpingParams) : Bool :=
  proofParams.epoch == v.currentEpoch &&
  proofParams.domainSeparator == v.currentParams.domainSeparator &&
  proofParams.friSeed == v.currentParams.friSeed &&
  proofParams.salt == v.currentParams.salt

/-- Embeds `IntegratedVerifier::verify`: epoch check, parameter check,
constant-time binding comparison, then the inner STARK verification. -/
def IntegratedVerifier.verify (perm : SpongeState → SpongeState)
    (v : IntegratedVerifier) (proof : IntegratedProof) : Except Err Bool :=
  if proof.epoch ≠ v.currentEpoch then .ok false
  else if ¬ v.verifyParamsMatch proof.params then .ok false
  else
    let expectedBinding :=
      computeBindingHash perm proof.starkProof proof.params proof.committedPublicValues
    if ¬ constantTimeEqFixed proof.bindingHash expectedBinding then .ok false
    else .ok (RealStarkVerifier.verifyByType proof.starkProof)

/-- Embeds `IntegratedVerifier::verify_with_salt`: re-derive the commitment
from the supplied values and salt, compare with the commitment stored in the
proof, then run the envelope verification. -/
def IntegratedVerifier.verifyWithSalt (perm : SpongeState → SpongeState)
    (v : IntegratedVerifier) (proof : IntegratedProof) (publicValues : List Nat)
    (pvSalt : List Nat) : Except Err Bool :=
  if ¬ CommittedPublicInputs.verify perm proof.committedPublicValues publicValues pvSalt then
    .ok false
  else IntegratedVerifier.verify perm v proof

/-- Embeds `IntegratedProof::erase_salt`: the optional salt is zeroized and
dropped; nothing else in the envelope changes. -/
def IntegratedProof.eraseSalt (proof : IntegratedProof) : IntegratedProof :=
  { proof with pvSalt := none }

/-- Embeds `IntegratedProof::has_salt`. -/
def IntegratedProof.hasSalt (proof : IntegratedProof) : Bool :=
  proof.pvSalt.isSome

/-- Embeds the `LightweightProof` struct of src/solana/lightweight.rs
(alloc path). -/
structure LightweightProof where
  commitment : List Nat
  merkleRoot : List Nat
  epoch : Nat
  timestamp : Nat
  publicValues : List Nat
  committedValues : List Nat
  deriving DecidableEq, Repr, Inhabited

/-- Embeds `LightweightProof::from_commitment`: the Merkle root is set to the
commitment (singleton convention) and the timestamp to zero. -/
def LightweightProof.fromCommitment (commitment : List Nat) (epoch : Nat)
    (publicValues : List Nat) (committedValues : List Nat) : LightweightProof :=
  { commitment := commitment, merkleRoot := commitment, epoch := epoch
    timestamp := 0, publicValues := publicValues, committedValues := committedValues }

/-- Embeds the `VerificationStatus` enum of src/solana/onchain_verifier.rs. -/
inductive VerificationStatus where
  | valid
  | invalidEpoch (expected got : Nat)
  | invalidCommitment
  | invalidMerkleProof
  | invalidPublicValues
  | invalidCommittedValues
  | malformedProof
  deriving DecidableEq, Repr, Inhabited

/-- Embeds `VerificationStatus::is_valid`. -/
def VerificationStatus.isValid : VerificationStatus → Bool
  | .valid => true
  | _ => false

/-- Embeds the `OnchainVerifier` struct of src/solana/onchain_verifier.rs. -/
structure OnchainVerifier where
  currentEpoch : Nat
  epochTolerance : Nat
  expectedPublicValues : Option (List Nat)
  expectedCommittedValues : List Nat
  deriving DecidableEq, Repr, Inhabited

/-- Embeds `OnchainVerifier::new`: tolerance 1, no expected public values. -/
def OnchainVerifier.new (currentEpoch : Nat) (expectedCommittedValues : List Nat) :
    OnchainVerifier :=
  { currentEpoch := currentEpoch, epochTolerance := 1
    expectedPublicValues := none, expectedCommittedValues := expectedCommittedValues }

/-- Embeds `OnchainVerifier::with_epoch_tolerance`. -/
def OnchainVerifier.withEpochTolerance (v : OnchainVerifier) (tolerance : Nat) :
    OnchainVerifier :=
  { v with epochTolerance := tolerance }

/-- Embeds `OnchainVerifier::with_expected_values`. -/
def OnchainVerifier.withExpectedValues (v : OnchainVerifier) (values : List Nat) :
    OnchainVerifier :=
  { v with expectedPublicValues := some values }

/-- Embeds the private `OnchainVerifier::is_valid_epoch`: future epochs are
rejected; otherwise the proof epoch must lie within the saturating window
`current - tolerance ≤ proof_epoch`. -/
def OnchainVerifier.isValidEpoch (v : OnchainVerifier) (proofEpoch : Nat) : Bool :=
  if proofEpoch > v.currentEpoch then false
  else v.currentEpoch - v.epochTolerance ≤ proofEpoch

/-- Embeds the private `OnchainVerifier::verify_public_values`: equal length
and pointwise equality. -/
def OnchainVerifier.verifyPublicValues (actual expected : List Nat) : Bool :=
  if actual.length ≠ expected.length then false
  else (actual.zip expected).all (fun p => p.1 == p.2)

/-- Embeds `OnchainVerifier::verify` of src/solana/onchain_verifier.rs.
Step 2 of the source tests
`proof.commitment != proof.merkle_root && proof.merkle_root != [0u8;32]`
but its body is empty (the comment reads: for now, we allow it to pass this
check), so the condition has no effect and does not appear below. -/
def OnchainVerifier.verify (v : OnchainVerifier) (proof : LightweightProof) :
    VerificationStatus :=
  if ¬ v.isValidEpoch proof.epoch then
    .invalidEpoch v.currentEpoch proof.epoch
  else if ¬ (v.expectedPublicValues.all
      (fun expected => OnchainVerifier.verifyPublicValues proof.publicValues expected)) then
    .invalidPublicValues
  else if proof.committedValues ≠ v.expectedCommittedValues then
    .invalidCommittedValues
  else .valid

/-- Embeds the `Proof` struct of src/core/types.rs (alloc path). -/
structure Proof where
  data : List Nat
  epoch : Nat
  version : Nat
  deriving DecidableEq, Repr, Inhabited

/-- Embeds the `CompressionAlgorithm` enum of src/utils/compression.rs. -/
inductive CompressionAlgorithm where
  | noCompression
  | rle
  deriving DecidableEq, Repr, Inhabited

/-- Embeds the `CompressedProof` struct of src/utils/compression.rs. -/
structure CompressedProof where
  originalSize : Nat
  compressedData : List Nat
  algorithm : CompressionAlgorithm
  checksum : List Nat
  epoch : Nat
  version : Nat
  deriving DecidableEq, Repr, Inhabited

/-- Expansion loop of `decompress_rle`: `chunks_exact(2)` walks the pairs
`(value, count)` and pushes `count` copies of `value`; a trailing odd byte
is ignored by `chunks_exact` (the even-length check already excluded it). -/
def rleExpandPairs : List Nat → List Nat
  | v :: c :: rest => List.replicate c v ++ rleExpandPairs rest
  | _ => []

/-- Embeds `decompress_rle` of src/utils/compression.rs: empty input yields
empty output, odd-length input is an error, and otherwise every pair is
expanded.  The source imposes no bound on the output length. -/
def decompressRle (data : List Nat) : Except Err (List Nat) :=
  if data = [] then .ok []
  else if data.length % 2 ≠ 0 then .error .serializationError
  else .ok (rleExpandPairs data)

/-- Embeds `CompressedProof::decompress`: decompress, check the recovered
length against `original_size`, check the checksum, rebuild the proof. -/
def CompressedProof.decompress (perm : SpongeState → SpongeState)
    (cp : CompressedProof) : Except Err Proof :=
  let decompressed : Except Err (List Nat) :=
    match cp.algorithm with
    | .noCompression => .ok cp.compressedData
    | .rle => decompressRle cp.compressedData
  match decompressed with
  | .error e => .error e
  | .ok decompressedData =>
    if decompressedData.length ≠ cp.originalSize then .error .serializationError
    else if poseidonHash perm decompressedData domainCompressionChecksum ≠ cp.checksum then
      .error .serializationError
    else .ok { data := decompressedData, epoch := cp.epoch, version := cp.version }

/-- Digest type of the Merkle layer: a 32-byte hash. -/
abbrev Digest := List Nat

/-- Level-combination step of `MerkleTree::new`, generic in the combiner:
nodes are paired left to right and a lone last node is combined with
itself. -/
def nextLevelF (f : Digest → Digest → Digest) : List Digest → List Digest
  | [] => []
  | [x] => [f x x]
  | x :: y :: rest => f x y :: nextLevelF f rest

/-- Level accumulation of the `while current_level.len() > 1` loop of
`MerkleTree::new`, with an explicit fuel bound (the level length strictly
decreases, so `cur.length` fuel suffices) so that it evaluates by kernel
reduction. -/
def levelsGoF (f : Digest → Digest → Digest) : Nat → List Digest → List (List Digest)
  | 0, cur => [cur]
  | fuel + 1, cur =>
    cur :: (if cur.length ≤ 1 then [] else levelsGoF f fuel (nextLevelF f cur))

/-- Levels of the Merkle tree, bottom-up, starting from the leaves. -/
def levelsF (f : Digest → Digest → Digest) (cur : List Digest) : List (List Digest) :=
  levelsGoF f cur.length cur

/-- Final level reached by iterating the combination step until at most one
node remains (the level holding the root). -/
def finalLevelGoF (f : Digest → Digest → Digest) : Nat → List Digest → List Digest
  | 0, cur => cur
  | fuel + 1, cur => if cur.length ≤ 1 then cur else finalLevelGoF f fuel (nextLevelF f cur)

/-- Sibling selection of `MerkleTree::get_proof`: index `i XOR 1` when in
range, otherwise the node itself (odd level). -/
def sibOfF (lvl : List Digest) (i : Nat) : Digest :=
  let s := if i % 2 == 0 then i + 1 else i - 1
  if s < lvl.length then lvl.getD s [] else lvl.getD i []

/-- Sibling collection of `MerkleTree::get_proof`: one sibling per level
except the root level, halving the index at each step. -/
def collectLevelsF : List (List Digest) → Nat → List Digest
  | [], _ => []
  | [_], _ => []
  | lvl :: rest, i => sibOfF lvl i :: collectLevelsF rest (i / 2)

/-- Path walk of `MerklePath::compute_root`, generic in the combiner: the low
bit of the running index decides the combination order, and the index is
halved after every sibling. -/
def computeRootF (f : Digest → Digest → Digest) : Nat → List Digest → Digest → Digest
  | _, [], current => current
  | idx, sib :: rest, current =>
    computeRootF f (idx / 2) rest (if idx % 2 == 0 then f current sib else f sib current)

/-- Internal combiner used by src/batching/merkle.rs: `combine_hashes` under
`DOMAIN_MERKLE`. -/
def merkleCombine (perm : SpongeState → SpongeState) (l r : Digest) : Digest :=
  combineHashes perm l r domainMerkle

/-- Embeds the `MerkleTree` struct of src/batching/merkle.rs. -/
structure MerkleTree where
  leaves : List Digest
  levels : List (List Digest)
  root : Digest
  deriving DecidableEq, Repr, Inhabited

/-- Embeds `MerkleTree::new`: empty leaves are rejected, the levels are built
bottom-up, and the root is the head of the last level. -/
def MerkleTree.new (perm : SpongeState → SpongeState) (leaves : List Digest) :
    Except Err MerkleTree :=
  if leaves = [] then .error .merkleError
  else
    let levels := levelsF (merkleCombine perm) leaves
    match (levels.getLastD []).head? with
    | none => .error .merkleError
    | some root => .ok { leaves := leaves, levels := levels, root := root }

/-- Embeds the `MerklePath` struct of src/batching/merkle.rs. -/
structure MerklePath where
  leafIndex : Nat
  siblings : List Digest
  root : Digest
  deriving DecidableEq, Repr, Inhabited

/-- Embeds `MerkleTree::get_proof`: bound check on the index, then one
sibling per level below the root. -/
def MerkleTree.getProof (t : MerkleTree) (index : Nat) : Except Err MerklePath :=
  if index ≥ t.leaves.length then .error .merkleError
  else .ok { leafIndex := index, siblings := collectLevelsF t.levels index, root := t.root }

/-- Embeds `MerklePath::compute_root`. -/
def MerklePath.computeRoot (perm : SpongeState → SpongeState) (path : MerklePath)
    (leaf : Digest) : Digest :=
  computeRootF (merkleCombine perm) path.leafIndex path.siblings leaf

/-- Embeds `MerklePath::verify_against`: constant-time comparison of the
recomputed root with the expected root. -/
def MerklePath.verifyAgainst (perm : SpongeState → SpongeState) (path : MerklePath)
    (leaf expectedRoot : Digest) : Bool :=
  constantTimeEqFixed (path.computeRoot perm leaf) expectedRoot

/-- Embeds `MerklePath::verify`: verification against the embedded root. -/
def MerklePath.verify (perm : SpongeState → SpongeState) (path : MerklePath)
    (leaf : Digest) : Bool :=
  path.verifyAgainst perm leaf path.root

/-- C5: the claim states that `Epoch::new(v)` panics for every `v` exceeding
`MAX_EPOCH = 2^64 - 2`.  The src body of `Epoch::new` is exactly
`Self { value }`: evaluating it at the failing input `u64::MAX = 2^64 - 1`
returns normally and constructs an epoch holding the out-of-range value.
The repository fuzz harness (fuzz/fuzz_targets/fuzz_epoch_parsing.rs)
documents `new()` as asserting and calls an `Epoch::try_new` that the src
snapshot does not define, so the claim reflects the intended behaviour and
the src code is the slip. -/
theorem claim_C5_bug :
    Epoch.new (2 ^ 64 - 1) = { value := 2 ^ 64 - 1 } ∧ maxEpoch < 2 ^ 64 - 1 :=
  ⟨rfl, by norm_num [maxEpoch, W64]⟩

/-- C10: `Epoch::new` accepts every `u64`, and for epochs at least
`⌈2^64 / 3600⌉` the products in `start_timestamp` and `end_timestamp`
overflow `u64`, so the methods do not return the mathematical values
(the embedding models release-mode wrapping modulo `2^64`).  The witness
epoch `2^63` is accepted (it is below `MAX_EPOCH`) yet both timestamps
differ from the mathematical values. -/
theorem claim_C10 :
    (∀ v, Epoch.new v = { value := v }) ∧
    (∀ v, 2 ^ 64 ≤ v * 3600 → (Epoch.new v).startTimestamp ≠ v * 3600) ∧
    (2 ^ 63 ≤ maxEpoch ∧ 2 ^ 64 ≤ 2 ^ 63 * 3600 ∧
      (Epoch.new (2 ^ 63)).startTimestamp ≠ 2 ^ 63 * 3600 ∧
      (Epoch.new (2 ^ 63)).endTimestamp ≠ (2 ^ 63 + 1) * 3600 - 1) := by
  refine ⟨fun v => rfl, ?_, ?_, ?_, ?_, ?_⟩
  · intro v hv
    have hlt : (Epoch.new v).startTimestamp < 2 ^ 64 := by
      unfold Epoch.startTimestamp W64
      exact Nat.mod_lt _ (by norm_num)
    omega
  · norm_num [maxEpoch, W64]
  · norm_num
  · show (2 ^ 63 * 3600) % W64 ≠ 2 ^ 63 * 3600
    norm_num [W64]
  · show ((2 ^ 63 + 1) % W64 * 3600 % W64 + W64 - 1) % W64 ≠ (2 ^ 63 + 1) * 3600 - 1
    norm_num [W64]

/-- C10 witness: the general overflow statement applied at the concrete
epoch `2^63`. -/
theorem claim_C10_witness :
    (Epoch.new (2 ^ 63)).startTimestamp ≠ 2 ^ 63 * 3600 :=
  claim_C10.2.1 (2 ^ 63) (by norm_num)

/-- Pointwise equality of zipped lists of equal length is list equality. -/
theorem zip_all_eq_iff (a b : List Nat) (hlen : a.length = b.length) :
    ((a.zip b).all fun p => p.1 == p.2) = true ↔ a = b := by
  induction a generalizing b with
  | nil =>
    cases b with
    | nil => simp
    | cons y ys => simp at hlen
  | cons x xs ih =>
    cases b with
    | nil => simp at hlen
    | cons y ys =>
      have hlen2 : xs.length = ys.length := by simpa using hlen
      simp only [List.zip_cons_cons, List.all_cons, Bool.and_eq_true, beq_iff_eq,
        List.cons.injEq]
      rw [ih ys hlen2]

/-- Pointwise public-value comparison agrees with list equality. -/
theorem verifyPublicValues_eq_true_iff (a b : List Nat) :
    OnchainVerifier.verifyPublicValues a b = true ↔ a = b := by
  unfold OnchainVerifier.verifyPublicValues
  by_cases hlen : a.length = b.length
  · rw [if_neg (by omega)]
    exact zip_all_eq_iff a b hlen
  · rw [if_pos hlen]
    constructor
    · intro h
      cases h
    · intro h
      subst h
      exact absurd rfl hlen

/-- Concrete singleton lightweight proof whose commitment differs from its
Merkle root while the root is not the all-zero array. -/
def c1Proof : LightweightProof :=
  { commitment := List.replicate 32 1, merkleRoot := List.replicate 32 2
    epoch := 100, timestamp := 0, publicValues := []
    committedValues := List.replicate 32 7 }

/-- C1 counterexample: the verifier built by `OnchainVerifier::new` at epoch
100 accepts a proof with `commitment ≠ merkle_root` and
`merkle_root ≠ [0; 32]` as `Valid`, because the coupling check in the source
is an empty block. -/
theorem claim_C1_counterexample :
    (OnchainVerifier.new 100 (List.replicate 32 7)).verify c1Proof =
        VerificationStatus.valid ∧
      c1Proof.commitment ≠ c1Proof.merkleRoot ∧
      c1Proof.merkleRoot ≠ List.replicate 32 0 := by
  refine ⟨rfl, ?_, ?_⟩ <;> decide

/-- C1 (amended): `OnchainVerifier::verify` returns `Valid` exactly when the
epoch window, the optional expected-public-values comparison, and the
expected-committed-values comparison succeed; the commitment/Merkle-root
coupling is not enforced (the source tests it but the if-body is empty). -/
theorem claim_C1_amended (v : OnchainVerifier) (pf : LightweightProof) :
    v.verify pf = VerificationStatus.valid ↔
      (pf.epoch ≤ v.currentEpoch ∧ v.currentEpoch - v.epochTolerance ≤ pf.epoch) ∧
      (∀ expected, v.expectedPublicValues = some expected → pf.publicValues = expected) ∧
      pf.committedValues = v.expectedCommittedValues := by
  unfold OnchainVerifier.verify OnchainVerifier.isValidEpoch
  constructor
  · intro h
    by_cases hfut : pf.epoch > v.currentEpoch
    · rw [if_pos] at h
      · cases h
      · simp [hfut]
    · by_cases hwin : v.currentEpoch - v.epochTolerance ≤ pf.epoch
      · rw [if_neg (by simp [hfut, hwin])] at h
        refine ⟨⟨by omega, hwin⟩, ?_⟩
        by_cases hpv : v.expectedPublicValues.all
            (fun expected => OnchainVerifier.verifyPublicValues pf.publicValues expected) = true
        · rw [if_neg (by simp [hpv])] at h
          by_cases hcv : pf.committedValues = v.expectedCommittedValues
          · refine ⟨?_, hcv⟩
            intro expected hexp
            rw [hexp] at hpv
            exact (verifyPublicValues_eq_true_iff _ _).mp (by simpa using hpv)
          · rw [if_pos hcv] at h
            cases h
        · rw [if_pos (by simpa using hpv)] at h
          cases h
      · rw [if_pos (by simp [hfut, hwin])] at h
        cases h
  · rintro ⟨⟨hle, hwin⟩, hpv, hcv⟩
    rw [if_neg (by simp [hwin]; omega)]
    rw [if_neg ?_, if_neg (by simp [hcv])]
    cases hexp : v.expectedPublicValues with
    | none => simp
    | some expected =>
      simp only [Option.all_some, Bool.not_eq_true]
      rw [Bool.not_eq_false]
      exact (verifyPublicValues_eq_true_iff _ _).mpr (hpv expected hexp)

/-- Concrete manager built by `MTDManager::with_epoch` at epoch 100 (the
parameters are derived with the identity permutation instance). -/
def c4Manager : MTDManager :=
  { seed := [1], currentEpoch := Epoch.new 100
    currentParams := genWarpingParams permId [1] (Epoch.new 100)
    cache := [], autoAdvance := false }

/-- C4 counterexample: a manager constructed by `with_epoch` has
`auto_advance = false`, and `sync` then returns `Ok(false)` before the clock
comparison: with the system clock at epoch 50, strictly below the current
epoch 100, `sync` succeeds as a silent no-op rather than failing. -/
theorem claim_C4_counterexample :
    MTDManager.withEpoch permId [1] (Epoch.new 100) = .ok c4Manager ∧
      (Epoch.new 50).value < c4Manager.currentEpoch.value ∧
      MTDManager.sync permId c4Manager (Epoch.new 50) = .ok (false, c4Manager) := by
  refine ⟨?_, by decide, rfl⟩
  rw [MTDManager.withEpoch, if_neg (by decide),
    WarpingParams.generate_eq permId [1] (Epoch.new 100) (by decide)]
  rfl

/-- C4 (amended): whenever `auto_advance` is enabled, a wall-clock epoch
strictly below the current epoch makes `sync` fail with an error — never a
silent no-op; managers built by `with_epoch` have `auto_advance = false` and
return `Ok(false)` without consulting the clock. -/
theorem claim_C4_amended (perm : SpongeState → SpongeState) (m : MTDManager)
    (sys : Epoch) (hauto : m.autoAdvance = true)
    (hlt : sys.value < m.currentEpoch.value) :
    MTDManager.sync perm m sys = .error .mtdError := by
  unfold MTDManager.sync
  rw [hauto]
  rw [if_neg (by simp), if_neg (by omega), if_pos hlt]

/-- C4 witness: the amended statement applied to the concrete manager with
`auto_advance` switched on and the clock at epoch 50. -/
theorem claim_C4_witness :
    MTDManager.sync permId (c4Manager.setAutoAdvance true) (Epoch.new 50) =
      .error .mtdError :=
  claim_C4_amended permId (c4Manager.setAutoAdvance true) (Epoch.new 50) rfl (by decide)

theorem flatten_replicate_pair_length (n v c : Nat) :
    (List.flatten (List.replicate n [v, c])).length = 2 * n := by
  induction n with
  | zero => rfl
  | succ m ih =>
    rw [List.replicate_succ, List.flatten_cons, List.length_append, ih]
    simp
    omega

theorem rleExpandPairs_flatten (n v c : Nat) :
    rleExpandPairs (List.flatten (List.replicate n [v, c])) = List.replicate (n * c) v := by
  induction n with
  | zero => simp [rleExpandPairs]
  | succ m ih =>
    rw [List.replicate_succ, List.flatten_cons]
    show rleExpandPairs (v :: c :: List.flatten (List.replicate m [v, c])) = _
    rw [rleExpandPairs, ih, ← List.replicate_add]
    congr 1
    ring

theorem decompressRle_flatten (n v c : Nat) (hn : n ≠ 0) :
    decompressRle (List.flatten (List.replicate n [v, c])) =
      .ok (List.replicate (n * c) v) := by
  unfold decompressRle
  rw [if_neg, if_neg, rleExpandPairs_flatten]
  · rw [flatten_replicate_pair_length]
    omega
  · intro h
    have h2 := congrArg List.length h
    rw [flatten_replicate_pair_length] at h2
    simp at h2
    omega

/-- General form of the missing cap: decompressing a well-formed RLE payload
of `n` pairs `(v, c)` through `CompressedProof::decompress` succeeds for any
expansion size `n * c`, with no bound applied anywhere. -/
theorem decompress_rle_nocap (perm : SpongeState → SpongeState) (n v c : Nat)
    (hn : n ≠ 0) :
    CompressedProof.decompress perm
      { originalSize := n * c, compressedData := List.flatten (List.replicate n [v, c])
        algorithm := .rle
        checksum := poseidonHash perm (List.replicate (n * c) v) domainCompressionChecksum
        epoch := 5, version := 1 } =
      .ok { data := List.replicate (n * c) v, epoch := 5, version := 1 } := by
  simp only [CompressedProof.decompress, decompressRle_flatten n v c hn]
  rw [if_neg (by simp), if_neg (by simp)]

/-- Compressed RLE payload of 41127 pairs `(0, 255)`, which expands to
`41127 * 255 = 10487385` bytes, just above the 10 MiB cap. -/
def c3Input : List Nat := List.flatten (List.replicate 41127 [0, 255])

/-- C3: the claim states that RLE decompression output is capped at 10 MiB
(`MAX_RLE_DECOMPRESSED_SIZE`) and that larger expansions are an error.  The
constant exists in src/utils/constants.rs with a doc comment naming exactly
this purpose, but `decompress_rle` never consults it: on a payload expanding
to `41127 * 255 = 10487385` bytes (> 10 * 1024 * 1024), `decompress_rle`
returns the full expansion, and `CompressedProof::decompress` with matching
size and checksum also succeeds.  The claim matches the documented intent;
the code omits the check. -/
theorem claim_C3_bug :
    decompressRle c3Input = .ok (List.replicate (41127 * 255) 0) ∧
      maxRleDecompressedSize < 41127 * 255 ∧
      (∀ perm, CompressedProof.decompress perm
          { originalSize := 41127 * 255, compressedData := c3Input
            algorithm := .rle
            checksum := poseidonHash perm (List.replicate (41127 * 255) 0)
              domainCompressionChecksum
            epoch := 5, version := 1 } =
        .ok { data := List.replicate (41127 * 255) 0, epoch := 5, version := 1 }) := by
  refine ⟨?_, by norm_num [maxRleDecompressedSize], ?_⟩
  · unfold c3Input
    rw [decompressRle_flatten 41127 0 255 (by norm_num)]
  · intro perm
    unfold c3Input
    exact decompress_rle_nocap perm 41127 0 255 (by norm_num)

theorem fibStep_iterate (k : Nat) :
    fibStep^[k] (0, 1) = (Nat.fib k % goldilocksP, Nat.fib (k + 1) % goldilocksP) := by
  induction k with
  | zero =>
    simp [Nat.fib, Nat.zero_mod]
    rw [Nat.mod_eq_of_lt (by norm_num [goldilocksP])]
  | succ m ih =>
    rw [Function.iterate_succ_apply', ih]
    unfold fibStep
    simp only
    have hfib : Nat.fib (m + 1 + 1) = Nat.fib m + Nat.fib (m + 1) := Nat.fib_add_two
    rw [hfib]
    congr 1
    exact (Nat.add_mod _ _ _).symm

theorem isPowerOfTwo_iff (n : Nat) (h : n < 2 ^ 64) :
    isPowerOfTwo n = true ↔ ∃ k, n = 2 ^ k := by
  unfold isPowerOfTwo
  rw [List.any_eq_true]
  constructor
  · rintro ⟨k, _, hk⟩
    exact ⟨k, by simpa using hk⟩
  · rintro ⟨k, rfl⟩
    refine ⟨k, List.mem_range.mpr ?_, by simp⟩
    exact (Nat.pow_lt_pow_iff_right (by norm_num)).mp h

/-- C6: for every power-of-two `num_rows ≥ 2`, the Fibonacci prover emits
exactly the four public values `[0, 1, F(n-1) mod p, F(n) mod p]` in the
Goldilocks field, the consistency check accepts a `(num_rows, pv)` pair
exactly when `num_rows` is a power of two at least 2 and `pv` is that
vector, and the concrete instance `num_rows = 8` yields `[0, 1, 13, 21]`. -/
theorem claim_C6 :
    (∀ n, 2 ≤ n → (∃ k, n = 2 ^ k) → n < 2 ^ 64 →
      RealStarkProver.proveFibonacci n =
        .ok { numRows := n
              publicValues := [0, 1, Nat.fib (n - 1) % goldilocksP,
                Nat.fib n % goldilocksP]
              airType := .fibonacci, innerValid := true }) ∧
    (∀ n pv, n < 2 ^ 64 →
      (verifyPublicValuesConsistency n pv = true ↔
        (∃ k, n = 2 ^ k) ∧ 2 ≤ n ∧
          pv = [0, 1, Nat.fib (n - 1) % goldilocksP, Nat.fib n % goldilocksP])) ∧
    computePublicValues 8 = [0, 1, 13, 21] := by
  have hcompute : ∀ n, 2 ≤ n →
      computePublicValues n =
        [0, 1, Nat.fib (n - 1) % goldilocksP, Nat.fib n % goldilocksP] := by
    intro n h2
    unfold computePublicValues
    rw [fibStep_iterate (n - 1)]
    have heq : n - 1 + 1 = n := by omega
    rw [heq]
  refine ⟨?_, ?_, by decide⟩
  · intro n h2 hex hlt
    unfold RealStarkProver.proveFibonacci
    rw [if_neg (by simp [(isPowerOfTwo_iff n hlt).mpr hex]), if_neg (by omega),
      hcompute n h2]
  · intro n pv hlt
    unfold verifyPublicValuesConsistency
    constructor
    · intro h
      split_ifs at h with h1 h2 h3 h4
      rcases pv with _ | ⟨a, _ | ⟨b, _ | ⟨c, _ | ⟨d, tail⟩⟩⟩⟩ <;> simp at h1
      subst h1
      simp only [List.getD_cons_zero, List.getD_cons_succ] at h4 h
      push_neg at h4
      obtain ⟨ha, hb⟩ := h4
      rw [fibStep_iterate (n - 1)] at h
      have heq : n - 1 + 1 = n := by omega
      rw [heq] at h
      simp only [Bool.and_eq_true, beq_iff_eq] at h
      refine ⟨(isPowerOfTwo_iff n hlt).mp (by simpa using h2), by omega, ?_⟩
      simp_all
    · rintro ⟨hex, h2n, rfl⟩
      rw [if_neg (by simp), if_neg (by simp [(isPowerOfTwo_iff n hlt).mpr hex]),
        if_neg (by omega), if_neg (by simp)]
      rw [fibStep_iterate (n - 1)]
      have heq : n - 1 + 1 = n := by omega
      rw [heq]
      simp

/-- C6 witness: the prover statement applied at the concrete trace height 8,
where `F(7) = 13` and `F(8) = 21`. -/
theorem claim_C6_witness :
    RealStarkProver.proveFibonacci 8 =
      .ok { numRows := 8
            publicValues := [0, 1, Nat.fib 7 % goldilocksP, Nat.fib 8 % goldilocksP]
            airType := .fibonacci, innerValid := true } :=
  claim_C6.1 8 (by norm_num) ⟨3, by norm_num⟩ (by norm_num)

/-- Operations a caller can issue against an `MTDManager` for the cache
transparency invariant: `advance()` and `get_params(e)`. -/
inductive MTDOp where
  | advanceOp
  | getParamsOp (e : Epoch)
  deriving DecidableEq, Repr, Inhabited

/-- Runs one operation, keeping the state unchanged when the operation
fails (the only failure reachable from a well-formed manager is the epoch
bound of `advance`, which in the source fails before any mutation). -/
def runOp (perm : SpongeState → SpongeState) (m : MTDManager) : MTDOp → MTDManager
  | .advanceOp =>
    match MTDManager.advance perm m with
    | .ok (_, m2) => m2
    | .error _ => m
  | .getParamsOp e =>
    match MTDManager.getParams perm m e with
    | .ok (_, m2) => m2
    | .error _ => m

/-- Runs a sequence of manager operations. -/
def runOps (perm : SpongeState → SpongeState) (m : MTDManager) (ops : List MTDOp) :
    MTDManager :=
  ops.foldl (runOp perm) m

/-- Well-formedness of a manager reachable from `with_epoch`: the stored seed
is the construction seed (non-empty), the current parameters are exactly the
derivation for the current epoch, and every cache entry is exactly the
derivation for its stored epoch. -/
def ManagerWF (perm : SpongeState → SpongeState) (seed : List Nat) (m : MTDManager) :
    Prop :=
  m.seed = seed ∧ seed ≠ [] ∧
  m.currentParams = genWarpingParams perm seed m.currentEpoch ∧
  ∀ q ∈ m.cache, q = genWarpingParams perm seed q.epoch

theorem withEpoch_wf (perm : SpongeState → SpongeState) (seed : List Nat) (e0 : Epoch)
    (m0 : MTDManager) (h0 : MTDManager.withEpoch perm seed e0 = .ok m0) :
    ManagerWF perm seed m0 := by
  unfold MTDManager.withEpoch at h0
  by_cases hs : seed = []
  · rw [if_pos hs] at h0
    cases h0
  · rw [if_neg hs, WarpingParams.generate_eq perm seed e0 hs] at h0
    cases h0
    exact ⟨rfl, hs, rfl, by simp⟩

theorem getParams_wf (perm : SpongeState → SpongeState) (seed : List Nat)
    (m : MTDManager) (e : Epoch) (r : WarpingParams) (m2 : MTDManager)
    (hwf : ManagerWF perm seed m)
    (h : MTDManager.getParams perm m e = .ok (r, m2)) :
    r = genWarpingParams perm seed e ∧ ManagerWF perm seed m2 := by
  obtain ⟨hseed, hne, hcur, hcache⟩ := hwf
  unfold MTDManager.getParams at h
  by_cases heq : e = m.currentEpoch
  · rw [if_pos heq] at h
    cases h
    exact ⟨by rw [hcur, heq], hseed, hne, hcur, hcache⟩
  · rw [if_neg heq] at h
    cases hfind : m.cache.find? (fun p => p.epoch == e) with
    | some cached =>
      rw [hfind] at h
      simp only [Except.ok.injEq, Prod.mk.injEq] at h
      obtain ⟨hr, hm2⟩ := h
      subst hr
      subst hm2
      have hmem : cached ∈ m.cache := List.mem_of_find?_eq_some hfind
      have hep : cached.epoch = e := by
        have := List.find?_some hfind
        simpa using this
      refine ⟨?_, hseed, hne, hcur, hcache⟩
      rw [hcache cached hmem, hep]
    | none =>
      rw [hfind, hseed, WarpingParams.generate_eq perm seed e hne] at h
      simp only [Except.ok.injEq, Prod.mk.injEq] at h
      obtain ⟨hr, hm2⟩ := h
      subst hr
      subst hm2
      refine ⟨rfl, rfl, hne, hcur, ?_⟩
      intro q hq
      rcases List.mem_append.mp hq with hq1 | hq2
      · have hq0 : q ∈ m.cache := by
          by_cases hlen : m.cache.length ≥ mtdParamCacheSize
          · rw [if_pos hlen] at hq1
            exact List.drop_subset 1 m.cache hq1
          · rw [if_neg hlen] at hq1
            exact hq1
        exact hcache q hq0
      · have hq0 : q = genWarpingParams perm seed e := by simpa using hq2
        rw [hq0]
        rfl

theorem advance_wf (perm : SpongeState → SpongeState) (seed : List Nat)
    (m : MTDManager) (r : WarpingParams) (m2 : MTDManager)
    (hwf : ManagerWF perm seed m)
    (h : MTDManager.advance perm m = .ok (r, m2)) :
    ManagerWF perm seed m2 := by
  obtain ⟨hseed, hne, hcur, hcache⟩ := hwf
  unfold MTDManager.advance Epoch.next at h
  by_cases hmax : m.currentEpoch.value ≥ maxEpoch
  · rw [if_pos hmax] at h
    cases h
  · rw [if_neg hmax] at h
    simp only at h
    rw [hseed, WarpingParams.generate_eq perm seed _ hne] at h
    simp only [Except.ok.injEq, Prod.mk.injEq] at h
    obtain ⟨hr, hm2⟩ := h
    subst hm2
    refine ⟨rfl, hne, rfl, ?_⟩
    intro q hq
    rcases List.mem_append.mp hq with hq1 | hq2
    · have hq0 : q ∈ m.cache := by
        by_cases hlen : m.cache.length ≥ mtdParamCacheSize
        · rw [if_pos hlen] at hq1
          exact List.drop_subset 1 m.cache hq1
        · rw [if_neg hlen] at hq1
          exact hq1
      exact hcache q hq0
    · have hq0 : q = m.currentParams := by simpa using hq2
      rw [hq0, hcur]
      rfl

theorem runOps_wf (perm : SpongeState → SpongeState) (seed : List Nat)
    (m : MTDManager) (ops : List MTDOp) (hwf : ManagerWF perm seed m) :
    ManagerWF perm seed (runOps perm m ops) := by
  induction ops generalizing m with
  | nil => exact hwf
  | cons op rest ih =>
    apply ih
    cases op with
    | advanceOp =>
      show ManagerWF perm seed (runOp perm m .advanceOp)
      simp only [runOp]
      cases hadv : MTDManager.advance perm m with
      | ok pr =>
        obtain ⟨r, m2⟩ := pr
        exact advance_wf perm seed m r m2 hwf hadv
      | error e => exact hwf
    | getParamsOp e =>
      show ManagerWF perm seed (runOp perm m (.getParamsOp e))
      simp only [runOp]
      cases hget : MTDManager.getParams perm m e with
      | ok pr =>
        obtain ⟨r, m2⟩ := pr
        exact (getParams_wf perm seed m e r m2 hwf hget).2
      | error e2 => exact hwf

/-- C9: cache transparency.  Starting from `with_epoch(seed, e0)` and running
any sequence of `advance` and `get_params` calls, every parameter value the
manager exposes — the current parameters, every cache entry, and every
`get_params` result — is exactly `WarpingParams::generate(seed, its epoch)`:
the FIFO cache and epoch advancement never alter derived values. -/
theorem claim_C9 (perm : SpongeState → SpongeState) (seed : List Nat) (e0 : Epoch)
    (m0 : MTDManager) (ops : List MTDOp)
    (h0 : MTDManager.withEpoch perm seed e0 = .ok m0) :
    (WarpingParams.generate perm seed (runOps perm m0 ops).currentEpoch =
        .ok (runOps perm m0 ops).currentParams) ∧
      (∀ q ∈ (runOps perm m0 ops).cache,
        WarpingParams.generate perm seed q.epoch = .ok q) ∧
      (∀ e r m2, MTDManager.getParams perm (runOps perm m0 ops) e = .ok (r, m2) →
        WarpingParams.generate perm seed e = .ok r) := by
  have hwf := runOps_wf perm seed m0 ops (withEpoch_wf perm seed e0 m0 h0)
  obtain ⟨hseed, hne, hcur, hcache⟩ := hwf
  refine ⟨?_, ?_, ?_⟩
  · rw [WarpingParams.generate_eq perm seed _ hne, hcur]
  · intro q hq
    rw [WarpingParams.generate_eq perm seed _ hne]
    exact congrArg Except.ok (hcache q hq).symm
  · intro e r m2 hget
    have hr := (getParams_wf perm seed (runOps perm m0 ops) e r m2
      ⟨hseed, hne, hcur, hcache⟩ hget).1
    rw [WarpingParams.generate_eq perm seed _ hne, hr]

/-- Concrete manager for the C9 witness, equal to the result of
`with_epoch([1], 100)` under the identity permutation instance. -/
def c9Manager : MTDManager :=
  { seed := [1], currentEpoch := Epoch.new 100
    currentParams := genWarpingParams permId [1] (Epoch.new 100)
    cache := [], autoAdvance := false }

/-- Concrete operation sequence for the C9 witness. -/
def c9Ops : List MTDOp := [.advanceOp, .getParamsOp (Epoch.new 7)]

/-- C9 witness: the invariant applied to a concrete manager and a concrete
operation sequence. -/
theorem claim_C9_witness :
    WarpingParams.generate permId [1] (runOps permId c9Manager c9Ops).currentEpoch =
      .ok (runOps permId c9Manager c9Ops).currentParams :=
  (claim_C9 permId [1] (Epoch.new 100) c9Manager c9Ops
    (by
      rw [MTDManager.withEpoch, if_neg (by decide),
        WarpingParams.generate_eq permId [1] (Epoch.new 100) (by decide)]
      rfl)).1

theorem verifyPVC_compute (n : Nat) (hpow : isPowerOfTwo n = true) (h2 : ¬ n < 2) :
    verifyPublicValuesConsistency n (computePublicValues n) = true := by
  unfold verifyPublicValuesConsistency computePublicValues
  rw [if_neg (by simp), if_neg (by simp [hpow]), if_neg h2, if_neg (by simp)]
  simp

theorem commit_verify_self (perm : SpongeState → SpongeState) (pv pvSalt : List Nat) :
    CommittedPublicInputs.verify perm
      (CommittedPublicInputs.commit perm pv pvSalt) pv pvSalt = true := by
  unfold CommittedPublicInputs.verify
  rw [if_neg (by simp [CommittedPublicInputs.commit])]
  exact constantTimeEqFixed_self _

/-- C2 (amended): for every envelope produced by `prove_fibonacci`,
`erase_salt` is idempotent and the envelope remains verifiable afterwards —
but `verify_with_salt` does not fail thereafter: it takes the salt as a
caller argument and never consults the stored optional salt, so calling it
with the original salt still succeeds after erasure (it fails only for a
salt whose recomputed commitment differs). -/
theorem claim_C2_amended (perm : SpongeState → SpongeState)
    (prover : IntegratedProver) (n : Nat) (pvSalt : List Nat) (pf : IntegratedProof)
    (hep : prover.mtdManager.currentParams.epoch = prover.mtdManager.currentEpoch)
    (hp : IntegratedProver.proveFibonacci perm prover n pvSalt = .ok pf) :
    pf.eraseSalt.eraseSalt = pf.eraseSalt ∧
      (∀ v : IntegratedVerifier,
        IntegratedVerifier.verify perm v pf.eraseSalt =
          IntegratedVerifier.verify perm v pf) ∧
      IntegratedVerifier.verify perm prover.getVerifier pf.eraseSalt = .ok true ∧
      IntegratedVerifier.verifyWithSalt perm prover.getVerifier pf.eraseSalt
        pf.starkProof.publicValues pvSalt = .ok true := by
  unfold IntegratedProver.proveFibonacci RealStarkProver.proveFibonacci at hp
  split_ifs at hp with h1 h2
  simp only [Except.ok.injEq] at hp
  subst hp
  have hpow : isPowerOfTwo n = true := h1
  have hverify :
      IntegratedVerifier.verify perm prover.getVerifier
        (IntegratedProof.eraseSalt
          { starkProof := { numRows := n, publicValues := computePublicValues n
                            airType := .fibonacci, innerValid := true }
            epoch := prover.mtdManager.currentEpoch
            params := prover.mtdManager.currentParams
            bindingHash := computeBindingHash perm
              { numRows := n, publicValues := computePublicValues n
                airType := .fibonacci, innerValid := true }
              prover.mtdManager.currentParams
              (CommittedPublicInputs.commit perm (computePublicValues n) pvSalt)
            committedPublicValues :=
              CommittedPublicInputs.commit perm (computePublicValues n) pvSalt
            pvSalt := some pvSalt }) = .ok true := by
    unfold IntegratedVerifier.verify IntegratedProof.eraseSalt
    rw [if_neg (by simp [IntegratedProver.getVerifier])]
    rw [if_neg (by simp [IntegratedVerifier.verifyParamsMatch, IntegratedProver.getVerifier, hep])]
    rw [if_neg (by simp [constantTimeEqFixed_self])]
    unfold RealStarkVerifier.verifyByType RealStarkVerifier.verifyFibonacci
    simp only
    rw [if_neg (by simp [verifyPVC_compute n hpow h2])]
  refine ⟨rfl, fun v => rfl, hverify, ?_⟩
  unfold IntegratedVerifier.verifyWithSalt
  rw [if_neg (by simp [IntegratedProof.eraseSalt, commit_verify_self])]
  exact hverify

/-- Concrete prover for the C2 counterexample, built over the identity
permutation instance at epoch 100 with seed `[1]`. -/
def c2Prover : IntegratedProver :=
  { mtdManager :=
    { seed := [1], currentEpoch := Epoch.new 100
      currentParams := genWarpingParams permId [1] (Epoch.new 100)
      cache := [], autoAdvance := false } }

/-- Salt used by the C2 counterexample (the spec scenario salt `[42; 32]`). -/
def c2Salt : List Nat := List.replicate 32 42

/-- Envelope produced by `prove_fibonacci(8)` under the C2 prover. -/
def c2Proof : IntegratedProof :=
  ((IntegratedProver.proveFibonacci permId c2Prover 8 c2Salt).toOption).getD default

set_option maxRecDepth 100000 in
/-- C2 counterexample: after `erase_salt()`, `verify` still returns `true`
(as the claim states), but `verify_with_salt` with the original salt also
returns `true`, contradicting the claim that it returns `false` for every
32-byte salt. -/
theorem claim_C2_counterexample :
    IntegratedProver.proveFibonacci permId c2Prover 8 c2Salt = .ok c2Proof ∧
      IntegratedVerifier.verify permId c2Prover.getVerifier c2Proof.eraseSalt =
        .ok true ∧
      IntegratedVerifier.verifyWithSalt permId c2Prover.getVerifier c2Proof.eraseSalt
        c2Proof.starkProof.publicValues c2Salt = .ok true := by
  exact ⟨rfl, rfl, rfl⟩

/-- C2 witness: the amended statement applied to the concrete envelope. -/
theorem claim_C2_witness :
    IntegratedVerifier.verifyWithSalt permId c2Prover.getVerifier c2Proof.eraseSalt
      c2Proof.starkProof.publicValues c2Salt = .ok true :=
  (claim_C2_amended permId c2Prover 8 c2Salt c2Proof rfl rfl).2.2.2

theorem foldl_append_eq_flatMap (g : Nat → List Nat) (l : List Nat) (d : List Nat) :
    l.foldl (fun acc v => acc ++ g v) d = d ++ l.flatMap g := by
  induction l generalizing d with
  | nil => simp
  | cons x xs ih =>
    rw [List.foldl_cons, ih, List.flatMap_cons, List.append_assoc]

/-- Binding-hash preimage as the specification writes it: the explicit
concatenation
`tag ∥ values_le ∥ committed ∥ value_count ∥ epoch ∥ dom_sep ∥ fri_seed ∥ salt`. -/
def bindingDataSpec (sp : RealProof) (params : WarpingParams)
    (committed : CommittedPublicInputs) : List Nat :=
  [sp.airType.asU8] ++ sp.publicValues.flatMap leBytes8 ++ committed.commitment ++
    leBytes4 committed.valueCount ++ leBytes8 params.epoch.value ++
    params.domainSeparator ++ params.friSeed ++ params.salt

/-- C7: the binding hash of every produced envelope is the Poseidon2 hash
under `DOMAIN_BINDING` of exactly the specified byte layout (AIR tag byte,
little-endian public values, commitment, value count, epoch, domain
separator, FRI seed, parameter salt), for all four prove operations; and the
verifier compares against the same single construction — a proof whose
binding hash differs from `compute_binding_hash` of its own components is
rejected. -/
theorem claim_C7 :
    (∀ (perm : SpongeState → SpongeState) sp params committed,
      computeBindingHash perm sp params committed =
        poseidonHash perm (bindingDataSpec sp params committed) domainBinding) ∧
    (∀ (perm : SpongeState → SpongeState) prover n pvSalt pf,
      IntegratedProver.proveFibonacci perm prover n pvSalt = .ok pf →
      pf.bindingHash = poseidonHash perm
        (bindingDataSpec pf.starkProof pf.params pf.committedPublicValues)
        domainBinding) ∧
    (∀ (perm : SpongeState → SpongeState) prover innerProve aValues bValues pvSalt pf,
      IntegratedProver.proveSum perm prover innerProve aValues bValues pvSalt = .ok pf →
      pf.bindingHash = poseidonHash perm
        (bindingDataSpec pf.starkProof pf.params pf.committedPublicValues)
        domainBinding) ∧
    (∀ (perm : SpongeState → SpongeState) prover innerProve aValues bValues pvSalt pf,
      IntegratedProver.proveMultiplication perm prover innerProve aValues bValues pvSalt
          = .ok pf →
      pf.bindingHash = poseidonHash perm
        (bindingDataSpec pf.starkProof pf.params pf.committedPublicValues)
        domainBinding) ∧
    (∀ (perm : SpongeState → SpongeState) prover innerProve value threshold pvSalt pf,
      IntegratedProver.proveRange perm prover innerProve value threshold pvSalt = .ok pf →
      pf.bindingHash = poseidonHash perm
        (bindingDataSpec pf.starkProof pf.params pf.committedPublicValues)
        domainBinding) ∧
    (∀ (perm : SpongeState → SpongeState) v pf,
      constantTimeEqFixed pf.bindingHash
          (computeBindingHash perm pf.starkProof pf.params pf.committedPublicValues)
          = false →
      IntegratedVerifier.verify perm v pf = .ok false) := by
  have hlayout : ∀ (perm : SpongeState → SpongeState) sp params committed,
      computeBindingHash perm sp params committed =
        poseidonHash perm (bindingDataSpec sp params committed) domainBinding := by
    intro perm sp params committed
    unfold computeBindingHash bindingData bindingDataSpec
    simp only [foldl_append_eq_flatMap]
  refine ⟨hlayout, ?_, ?_, ?_, ?_, ?_⟩
  · intro perm prover n pvSalt pf hp
    unfold IntegratedProver.proveFibonacci at hp
    cases hinner : RealStarkProver.proveFibonacci n with
    | error e =>
      rw [hinner] at hp
      cases hp
    | ok sp =>
      rw [hinner] at hp
      simp only [Except.ok.injEq] at hp
      subst hp
      exact hlayout perm sp _ _
  · intro perm prover innerProve aValues bValues pvSalt pf hp
    unfold IntegratedProver.proveSum at hp
    cases hinner : innerProve aValues bValues with
    | error e =>
      rw [hinner] at hp
      cases hp
    | ok sp =>
      rw [hinner] at hp
      simp only [Except.ok.injEq] at hp
      subst hp
      exact hlayout perm sp _ _
  · intro perm prover innerProve aValues bValues pvSalt pf hp
    unfold IntegratedProver.proveMultiplication at hp
    cases hinner : innerProve aValues bValues with
    | error e =>
      rw [hinner] at hp
      cases hp
    | ok sp =>
      rw [hinner] at hp
      simp only [Except.ok.injEq] at hp
      subst hp
      exact hlayout perm sp _ _
  · intro perm prover innerProve value threshold pvSalt pf hp
    unfold IntegratedProver.proveRange at hp
    cases hinner : innerProve value threshold with
    | error e =>
      rw [hinner] at hp
      cases hp
    | ok sp =>
      rw [hinner] at hp
      simp only [Except.ok.injEq] at hp
      subst hp
      exact hlayout perm sp _ _
  · intro perm v pf hfail
    unfold IntegratedVerifier.verify
    by_cases hep : pf.epoch ≠ v.currentEpoch
    · rw [if_pos hep]
    · rw [if_neg hep]
      by_cases hpm : v.verifyParamsMatch pf.params
      · rw [if_neg (by simp [hpm])]
        rw [if_pos (by simp [hfail])]
      · rw [if_pos (by simp [hpm])]

/-- Concrete prover for the C7 witness. -/
def c7Prover : IntegratedProver :=
  { mtdManager :=
    { seed := [2], currentEpoch := Epoch.new 100
      currentParams := genWarpingParams permId [2] (Epoch.new 100)
      cache := [], autoAdvance := false } }

/-- Envelope produced by `prove_fibonacci(8)` under the C7 prover. -/
def c7Proof : IntegratedProof :=
  ((IntegratedProver.proveFibonacci permId c7Prover 8 (List.replicate 32 1)).toOption).getD
    default

/-- C7 witness: the layout statement applied to the concrete envelope. -/
theorem claim_C7_witness :
    c7Proof.bindingHash = poseidonHash permId
      (bindingDataSpec c7Proof.starkProof c7Proof.params c7Proof.committedPublicValues)
      domainBinding :=
  claim_C7.2.1 permId c7Prover 8 (List.replicate 32 1) c7Proof rfl

theorem getD_cons_two (x y : Digest) (rest : List Digest) (k : Nat) (d : Digest) :
    (x :: y :: rest).getD (k + 2) d = rest.getD k d := by
  have h1 : (x :: y :: rest).getD (k + 2) d = (y :: rest).getD (k + 1) d :=
    List.getD_cons_succ
  have h2 : (y :: rest).getD (k + 1) d = rest.getD k d := List.getD_cons_succ
  rw [h1, h2]

theorem nextLevelF_length (f : Digest → Digest → Digest) :
    ∀ l : List Digest, (nextLevelF f l).length = (l.length + 1) / 2
  | [] => by simp [nextLevelF]
  | [_] => by simp [nextLevelF]
  | _ :: _ :: rest => by
    have ih := nextLevelF_length f rest
    simp only [nextLevelF, List.length_cons, ih]
    omega

theorem nextLevelF_ne_nil (f : Digest → Digest → Digest) (l : List Digest)
    (h : l ≠ []) : nextLevelF f l ≠ [] := by
  intro hc
  have h1 := nextLevelF_length f l
  rw [hc] at h1
  have h2 : l.length ≠ 0 := fun h0 => h (List.length_eq_zero.mp h0)
  simp at h1
  omega

theorem sibOfF_shift (x y : Digest) (rest : List Digest) (k : Nat) :
    sibOfF (x :: y :: rest) (k + 2) = sibOfF rest k := by
  unfold sibOfF
  have hmod : (k + 2) % 2 = k % 2 := by omega
  by_cases hpar : k % 2 = 0
  · rw [hmod, hpar]
    simp only [beq_self_eq_true, if_true]
    have hc : (k + 2 + 1 < (x :: y :: rest).length) ↔ (k + 1 < rest.length) := by
      simp only [List.length_cons]
      omega
    by_cases h1 : k + 1 < rest.length
    · rw [if_pos (hc.mpr h1), if_pos h1]
      have he : k + 2 + 1 = k + 1 + 2 := by omega
      rw [he, getD_cons_two]
    · rw [if_neg (fun hcon => h1 (hc.mp hcon)), if_neg h1, getD_cons_two]
  · have hcond1 : ¬(((k + 2) % 2 == 0) = true) := by
      rw [hmod]
      simpa using hpar
    have hcond2 : ¬((k % 2 == 0) = true) := by simpa using hpar
    rw [if_neg hcond1, if_neg hcond2]
    have hk1 : 1 ≤ k := by omega
    have hc : (k + 2 - 1 < (x :: y :: rest).length) ↔ (k - 1 < rest.length) := by
      simp only [List.length_cons]
      omega
    have he : k + 2 - 1 = k - 1 + 2 := by omega
    by_cases h1 : k - 1 < rest.length
    · rw [if_pos (hc.mpr h1), if_pos h1, he, getD_cons_two]
    · rw [if_neg (fun hcon => h1 (hc.mp hcon)), if_neg h1, getD_cons_two]

theorem nextLevel_step (f : Digest → Digest → Digest) :
    ∀ (l : List Digest) (i : Nat), i < l.length →
      (if i % 2 == 0 then f (l.getD i []) (sibOfF l i)
        else f (sibOfF l i) (l.getD i [])) = (nextLevelF f l).getD (i / 2) []
  | [], i, h => by simp at h
  | [x], i, h => by
    have hi : i = 0 := by
      simp only [List.length_cons, List.length_nil] at h
      omega
    subst hi
    simp [sibOfF, nextLevelF]
  | x :: y :: rest, 0, _ => by simp [sibOfF, nextLevelF]
  | x :: y :: rest, 1, _ => by simp [sibOfF, nextLevelF]
  | x :: y :: rest, (k + 2), h => by
    have hk : k < rest.length := by
      simp only [List.length_cons] at h
      omega
    have ih := nextLevel_step f rest k hk
    have hmod : (k + 2) % 2 = k % 2 := by omega
    have hdiv : (k + 2) / 2 = k / 2 + 1 := by omega
    rw [hmod, hdiv, sibOfF_shift, getD_cons_two]
    show _ = (f x y :: nextLevelF f rest).getD (k / 2 + 1) []
    rw [List.getD_cons_succ]
    exact ih

theorem levelsGoF_ne_nil (f : Digest → Digest → Digest) (fuel : Nat)
    (cur : List Digest) : levelsGoF f fuel cur ≠ [] := by
  cases fuel with
  | zero => simp [levelsGoF]
  | succ m => simp [levelsGoF]

theorem finalLevelGoF_ne_nil (f : Digest → Digest → Digest) :
    ∀ (fuel : Nat) (cur : List Digest), cur ≠ [] → finalLevelGoF f fuel cur ≠ []
  | 0, cur, h => h
  | fuel + 1, cur, h => by
    unfold finalLevelGoF
    by_cases hlen : cur.length ≤ 1
    · rw [if_pos hlen]
      exact h
    · rw [if_neg hlen]
      exact finalLevelGoF_ne_nil f fuel (nextLevelF f cur)
        (nextLevelF_ne_nil f cur h)

theorem getLastD_congr (L : List (List Digest)) (d1 d2 : List Digest)
    (h : L ≠ []) : L.getLastD d1 = L.getLastD d2 := by
  cases L with
  | nil => exact absurd rfl h
  | cons a l =>
    rw [List.getLastD_cons, List.getLastD_cons]

theorem getLastD_levelsGoF (f : Digest → Digest → Digest) :
    ∀ (fuel : Nat) (cur : List Digest),
      (levelsGoF f fuel cur).getLastD [] = finalLevelGoF f fuel cur
  | 0, cur => by simp [levelsGoF, finalLevelGoF]
  | fuel + 1, cur => by
    unfold levelsGoF finalLevelGoF
    by_cases hlen : cur.length ≤ 1
    · rw [if_pos hlen, if_pos hlen]
      simp
    · rw [if_neg hlen, if_neg hlen]
      rw [List.getLastD_cons]
      rw [getLastD_congr _ _ [] (levelsGoF_ne_nil f fuel _)]
      exact getLastD_levelsGoF f fuel (nextLevelF f cur)

theorem roundTripAux (f : Digest → Digest → Digest) :
    ∀ (fuel : Nat) (cur : List Digest) (i : Nat), cur.length ≤ fuel + 1 →
      i < cur.length →
      computeRootF f i (collectLevelsF (levelsGoF f fuel cur) i) (cur.getD i []) =
        (finalLevelGoF f fuel cur).getD 0 []
  | 0, cur, i, hfuel, hi => by
    have hone : cur.length = 1 := by omega
    have hzero : i = 0 := by omega
    subst hzero
    rcases cur with _ | ⟨a, rest⟩
    · simp at hi
    · have hrest : rest = [] := by
        simp only [List.length_cons] at hone
        exact List.length_eq_zero.mp (by omega)
      subst hrest
      simp [levelsGoF, collectLevelsF, computeRootF, finalLevelGoF]
  | fuel + 1, cur, i, hfuel, hi => by
    unfold levelsGoF finalLevelGoF
    by_cases hlen : cur.length ≤ 1
    · rw [if_pos hlen, if_pos hlen]
      have hzero : i = 0 := by omega
      subst hzero
      rcases cur with _ | ⟨a, rest⟩
      · simp at hi
      · have hrest : rest = [] := by
          simp only [List.length_cons] at hlen
          exact List.length_eq_zero.mp (by omega)
        subst hrest
        simp [collectLevelsF, computeRootF]
    · rw [if_neg hlen, if_neg hlen]
      have hcons : collectLevelsF (cur :: levelsGoF f fuel (nextLevelF f cur)) i =
          sibOfF cur i :: collectLevelsF (levelsGoF f fuel (nextLevelF f cur)) (i / 2) := by
        cases hL : levelsGoF f fuel (nextLevelF f cur) with
        | nil => exact absurd hL (levelsGoF_ne_nil f fuel _)
        | cons a l => rfl
      rw [hcons]
      show computeRootF f (i / 2) _
          (if i % 2 == 0 then f (cur.getD i []) (sibOfF cur i)
            else f (sibOfF cur i) (cur.getD i [])) = _
      rw [nextLevel_step f cur i hi]
      have hnl : (nextLevelF f cur).length = (cur.length + 1) / 2 :=
        nextLevelF_length f cur
      have hfuel2 : (nextLevelF f cur).length ≤ fuel + 1 := by
        rw [hnl]
        omega
      have hi2 : i / 2 < (nextLevelF f cur).length := by
        rw [hnl]
        omega
      exact roundTripAux f fuel (nextLevelF f cur) (i / 2) hfuel2 hi2

theorem head?_eq_getD (l : List Digest) (h : l ≠ []) :
    l.head? = some (l.getD 0 []) := by
  cases l with
  | nil => exact absurd rfl h
  | cons a rest => rfl

/-- C8: for every non-empty list of leaves (including lengths with odd
levels, where the last node is paired with itself) and every index below the
number of leaves, `MerkleTree::new` succeeds, `get_proof(i)` succeeds, and
`verify` of the returned path at the original leaf returns `true`. -/
theorem claim_C8 (perm : SpongeState → SpongeState) (leaves : List Digest)
    (i : Nat) (hne : leaves ≠ []) (hi : i < leaves.length) :
    ∃ t pth, MerkleTree.new perm leaves = .ok t ∧ t.getProof i = .ok pth ∧
      pth.verify perm (leaves.getD i []) = true := by
  have hfinal : finalLevelGoF (merkleCombine perm) leaves.length leaves ≠ [] :=
    finalLevelGoF_ne_nil (merkleCombine perm) leaves.length leaves hne
  have hlast : (levelsF (merkleCombine perm) leaves).getLastD [] =
      finalLevelGoF (merkleCombine perm) leaves.length leaves :=
    getLastD_levelsGoF (merkleCombine perm) leaves.length leaves
  have hhead : ((levelsF (merkleCombine perm) leaves).getLastD []).head? =
      some ((finalLevelGoF (merkleCombine perm) leaves.length leaves).getD 0 []) := by
    rw [hlast]
    exact head?_eq_getD _ hfinal
  refine ⟨{ leaves := leaves, levels := levelsF (merkleCombine perm) leaves
            root := (finalLevelGoF (merkleCombine perm) leaves.length leaves).getD 0 [] },
    { leafIndex := i
      siblings := collectLevelsF (levelsF (merkleCombine perm) leaves) i
      root := (finalLevelGoF (merkleCombine perm) leaves.length leaves).getD 0 [] },
    ?_, ?_, ?_⟩
  · unfold MerkleTree.new
    rw [if_neg hne]
    simp only [hhead]
  · unfold MerkleTree.getProof
    rw [if_neg (by show ¬ i ≥ leaves.length; omega)]
  · unfold MerklePath.verify MerklePath.verifyAgainst MerklePath.computeRoot
    simp only
    have hroot := roundTripAux (merkleCombine perm) leaves.length leaves i
      (by omega) hi
    unfold levelsF
    rw [hroot]
    exact constantTimeEqFixed_self _

/-- C8 witness: the round trip applied to a concrete three-leaf tree (odd
level) at index 1. -/
theorem claim_C8_witness :
    ∃ t pth, MerkleTree.new permId
        [List.replicate 32 1, List.replicate 32 2, List.replicate 32 3] = .ok t ∧
      t.getProof 1 = .ok pth ∧
      pth.verify permId
        ([List.replicate 32 1, List.replicate 32 2, List.replicate 32 3].getD 1 [])
        = true :=
  claim_C8 permId [List.replicate 32 1, List.replicate 32 2, List.replicate 32 3] 1
    (by decide) (by decide)

end ZKMTD
